import Mathlib

/-!
A shallow embedding of `notion2pg.py` (single-file importer of Notion
databases into PostgreSQL tables), together with proofs of the spec claims
about its type-inference engine (`convert`), value normalization
(`get_value` / `maybe_date`), identifier sanitization (`sanitize_name`),
the retry loop of `iter_database`, and the schema/row assembly of
`sync_database`.

Python values are embedded as an inductive `Value`; Python numbers keep the
observation-time int/float distinction (`Number`); fallible code returns
`Except PyErr`.
-/

namespace Notion2pg

/-- Module-level constants of `notion2pg.py`. -/
def DELAY : Nat := 1

/-- Retry queries up to RETRIES times. -/
def RETRIES : Nat := 10

/-- Multiply DELAY by BACKOFF between retries. -/
def BACKOFF : Nat := 2

/-- Page size requested from the Notion API. -/
def PAGE_SIZE : Nat := 64

/-- Regex `DATE_RE = re.compile(r"[0-9]{4}-[0-9]{2}-[0-9]{2}")` used with
`fullmatch`: exactly four ASCII digits, a dash, two digits, a dash, two
digits. -/
def isDateStr (s : String) : Bool :=
  match s.data with
  | [c1, c2, c3, c4, d1, c5, c6, d2, c7, c8] =>
    c1.isDigit && c2.isDigit && c3.isDigit && c4.isDigit && d1 = '-' &&
    c5.isDigit && c6.isDigit && d2 = '-' && c7.isDigit && c8.isDigit
  | _ => false

/-- The literal suffix `"T00:00:00.000+00:00"` (19 characters) tested by
`maybe_date`. -/
def MIDNIGHT_UTC : List Char := "T00:00:00.000+00:00".data

/-- Function `maybe_date`: fix date values when Notion returns them as datetimes.
`value.endswith("T00:00:00.000+00:00")` is the suffix test on the character
sequence and `value[:-19]` keeps all but the last 19 characters. -/
def maybe_date : Option String → Option String
  | none => none
  | some v =>
    if MIDNIGHT_UTC.isSuffixOf v.data then
      some ⟨v.data.take (v.data.length - 19)⟩
    else
      some v

/-- A Python number: `int` or `float` at observation time.  Floats are
embedded as rationals (every numeric literal in the claims is rational). -/
inductive Number where
  | int (n : Int)
  | float (q : Rat)
deriving DecidableEq, Repr

/-- A Python value as produced by `get_value` and consumed by `convert`:
`None`, a string, a number, a bool, a list of strings
(multi_select/people/files/relation), a start/end pair (date), or a
`(subtype, payload)` pair (formula/rollup). -/
inductive Value where
  | vnone
  | vstr (s : String)
  | vnum (n : Number)
  | vbool (b : Bool)
  | vlist (xs : List String)
  | vpair (start stop : Option String)
  | vtagged (tag : String) (payload : Value)
deriving DecidableEq, Repr

/-- Python exceptions raised by the embedded fragments. -/
inductive PyErr where
  | valueError
  | typeError
  | notImplementedError
  | assertionError
deriving DecidableEq, Repr

/-- Test `isinstance(value, int)` on an embedded value.  Python `bool` is a
subclass of `int`, hence `vbool` also answers true. -/
def isinstanceInt : Value → Bool
  | .vnum (.int _) => true
  | .vbool _ => true
  | _ => false

/-- Numeric reading of an embedded value (Python `==` identifies `1` and
`1.0`); used to state numeric equalities about coerced columns. -/
def Value.toRatOpt : Value → Option Rat
  | .vnum (.int n) => some (n : Rat)
  | .vnum (.float q) => some q
  | _ => none

/-- The `number` branch of `convert`:
`all(isinstance(value, int) for value in values if value is not None)`
chooses `integer`, else `double precision`; values are returned verbatim. -/
def convertNumber (values : List Value) : Option String × List Value :=
  if values.all (fun v => decide (v = .vnone) || isinstanceInt v) then
    (some "integer", values)
  else
    (some "double precision", values)

/-- Subscript access `value[0]`, `value[1]` on a date pair; a non-pair value
would raise a `TypeError` in Python. -/
def asPair : Value → Except PyErr (Option String × Option String)
  | .vpair a b => .ok (a, b)
  | _ => .error .typeError

/-- Effectful map over a list, stopping at the first error (the way a Python
list comprehension propagates an exception). -/
def mapME (f : α → Except PyErr β) : List α → Except PyErr (List β)
  | [] => .ok []
  | a :: as =>
    match f a with
    | .error e => .error e
    | .ok b =>
      match mapME f as with
      | .error e => .error e
      | .ok bs => .ok (b :: bs)

/-- Embed an `Optional[str]` back into `Value`. -/
def optToValue : Option String → Value
  | none => .vnone
  | some s => .vstr s

/-- Test `all(DATE_RE.fullmatch(x) for x in l if x is not None)`. -/
def allDates (l : List (Option String)) : Bool :=
  l.all fun o =>
    match o with
    | none => true
    | some s => isDateStr s

/-- The `date` branch of `convert`: range iff any end value is set;
date-only iff every non-absent boundary fullmatches `DATE_RE`; the scalar
branch keeps only the start components. -/
def convertDate (values : List Value) : Except PyErr (Option String × List Value) :=
  match mapME asPair values with
  | .error e => .error e
  | .ok pairs =>
    if pairs.any (fun p => p.2.isSome) then
      if allDates (pairs.map (fun p => p.1)) && allDates (pairs.map (fun p => p.2)) then
        .ok (some "daterange", values)
      else
        .ok (some "tstzrange", values)
    else
      let starts := pairs.map (fun p => p.1)
      if allDates starts then
        .ok (some "date", starts.map optToValue)
      else
        .ok (some "timestamp with time zone", starts.map optToValue)

/-- Access `len(value)` / truthiness on a list value; non-lists would raise
`TypeError` in Python. -/
def asList : Value → Except PyErr (List String)
  | .vlist xs => .ok xs
  | _ => .error .typeError

/-- The `people` / `files` / `relation` branches of `convert`: when every
row's list has at most one element, collapse to the scalar type taking
`value[0] if value else None`; otherwise keep the array type and the lists. -/
def collapseLists (scalarType arrayType : String) (values : List Value) :
    Except PyErr (Option String × List Value) :=
  match mapME asList values with
  | .error e => .error e
  | .ok lists =>
    if lists.all (fun l => decide (l.length ≤ 1)) then
      .ok (some scalarType, lists.map fun l =>
        match l.head? with
        | some x => .vstr x
        | none => .vnone)
    else
      .ok (some arrayType, values)

/-- Destructure a `(subtype, payload)` value produced for formulas and
rollups. -/
def asTagged : Value → Except PyErr (String × Value)
  | .vtagged t p => .ok (t, p)
  | _ => .error .typeError

/-- Unpacking `(subtype,) = set(tags)`: tuple-unpacking the set of observed subtypes
succeeds only when exactly one distinct subtype is present; an empty or
mixed set raises `ValueError`. -/
def theUnique (tags : List String) : Except PyErr String :=
  match tags with
  | [] => .error .valueError
  | t :: rest => if rest.all (fun u => u == t) then .ok t else .error .valueError

/-- Dispatch of the `formula` branch of `convert` once the unique subtype is
known, applied to the unwrapped payloads. -/
def formulaDispatch (subtype : String) (values : List Value) :
    Except PyErr (Option String × List Value) :=
  if subtype = "string" then .ok (some "text", values)
  else if subtype = "number" then .ok (convertNumber values)
  else if subtype = "date" then convertDate values
  else if subtype = "boolean" then .ok (some "boolean", values)
  else .error .notImplementedError

/-- Dispatch of the `rollup` branch of `convert` once the unique subtype is
known, applied to the unwrapped payloads; subtype `array` yields the
no-target-type sentinel (`none`). -/
def rollupDispatch (subtype : String) (values : List Value) :
    Except PyErr (Option String × List Value) :=
  if subtype = "array" then .ok (none, values)
  else if subtype = "number" then .ok (convertNumber values)
  else if subtype = "date" then convertDate values
  else .error .notImplementedError

/-- A Notion property descriptor; `convert` and `get_value` dispatch on its
`type` string only. -/
structure Property where
  type : String
deriving DecidableEq, Repr

/-- Function `convert(property, values)`: convert a Notion property to a PostgreSQL
column.  `.ok (none, _)` is the sentinel meaning the field must be skipped;
unknown property types and formula/rollup subtypes raise
`NotImplementedError`. -/
def convert (property : Property) (values : List Value) :
    Except PyErr (Option String × List Value) :=
  if property.type = "title" then .ok (some "text", values)
  else if property.type = "rich_text" then .ok (some "text", values)
  else if property.type = "number" then .ok (convertNumber values)
  else if property.type = "select" then .ok (some "text", values)
  else if property.type = "multi_select" then .ok (some "text[]", values)
  else if property.type = "date" then convertDate values
  else if property.type = "people" then collapseLists "uuid" "uuid[]" values
  else if property.type = "files" then collapseLists "text" "text[]" values
  else if property.type = "checkbox" then .ok (some "boolean", values)
  else if property.type = "url" then .ok (some "text", values)
  else if property.type = "email" then .ok (some "text", values)
  else if property.type = "phone_number" then .ok (some "text", values)
  else if property.type = "formula" then
    match mapME asTagged values with
    | .error e => .error e
    | .ok tagged =>
      match theUnique (tagged.map Prod.fst) with
      | .error e => .error e
      | .ok subtype => formulaDispatch subtype (tagged.map Prod.snd)
  else if property.type = "relation" then collapseLists "uuid" "uuid[]" values
  else if property.type = "rollup" then
    match mapME asTagged values with
    | .error e => .error e
    | .ok tagged =>
      match theUnique (tagged.map Prod.fst) with
      | .error e => .error e
      | .ok subtype => rollupDispatch subtype (tagged.map Prod.snd)
  else if property.type = "created_time" then .ok (some "timestamp with time zone", values)
  else if property.type = "created_by" then .ok (some "uuid", values)
  else if property.type = "last_edited_time" then .ok (some "timestamp with time zone", values)
  else if property.type = "last_edited_by" then .ok (some "uuid", values)
  else .error .notImplementedError

/-- The raw `date` object of a formula or rollup property value: a start
string, an optional end string, and an optional time zone name. -/
structure RawDate where
  start : String
  stop : Option String
  time_zone : Option String
deriving DecidableEq, Repr

/-- The `formula` / subtype `date` branch of `get_value`: asserts that
`time_zone` and `end` are absent, applies `maybe_date` to the start, and
returns `("date", (start_date, None))`. -/
def getValueFormulaDate (date : Option RawDate) : Except PyErr Value :=
  match date with
  | none => .ok (.vtagged "date" (.vpair none none))
  | some d =>
    if d.time_zone.isSome then .error .assertionError
    else if d.stop.isSome then .error .assertionError
    else .ok (.vtagged "date" (.vpair (maybe_date (some d.start)) none))

/-- The `rollup` / subtype `date` branch of `get_value`: asserts that
`time_zone` is absent and applies `maybe_date` to both boundaries. -/
def getValueRollupDate (date : Option RawDate) : Except PyErr Value :=
  match date with
  | none => .ok (.vtagged "date" (.vpair none none))
  | some d =>
    if d.time_zone.isSome then .error .assertionError
    else .ok (.vtagged "date" (.vpair (maybe_date (some d.start)) (maybe_date d.stop)))

/-- The character class kept by `INVALID_IN_NAME_RE = re.compile("[^a-z0-9_]")`:
code points of `a`-`z` (97-122), `0`-`9` (48-57), and `_`. -/
def isNameChar (c : Char) : Bool :=
  (97 ≤ c.toNat && c.toNat ≤ 122) || (48 ≤ c.toNat && c.toNat ≤ 57) || c = '_'

/-- Step `.encode("ascii", "ignore").decode()`: drop every non-ASCII character. -/
def asciiIgnore (s : String) : String :=
  ⟨s.data.filter (fun c => decide (c.toNat < 128))⟩

/-- Step `.lower()` on the ASCII string produced by the ascii encoding step. -/
def pyLower (s : String) : String :=
  ⟨s.data.map Char.toLower⟩

/-- Python whitespace stripped by `str.strip()` on ASCII strings. -/
def isPySpace (c : Char) : Bool :=
  c = ' ' || c = '\t' || c = '\n' || c = '\r' || c = '\x0b' || c = '\x0c'

/-- Step `.strip()`: drop leading and trailing whitespace. -/
def pyStrip (s : String) : String :=
  ⟨((s.data.dropWhile isPySpace).reverse.dropWhile isPySpace).reverse⟩

/-- Step `.replace(" ", "_")`. -/
def replaceSpaces (s : String) : String :=
  ⟨s.data.map (fun c => if c = ' ' then '_' else c)⟩

/-- Step `INVALID_IN_NAME_RE.sub("", name)`. -/
def subInvalid (s : String) : String :=
  ⟨s.data.filter isNameChar⟩

/-- Function `sanitize_name`: convert a Notion property name to a PostgreSQL column
name.  The Unicode NFKD normalization is the only library step not
re-implemented here; it is passed in as `nfkd` and the theorems assume
exactly what the proofs need of it (it fixes strings that are already
sanitized, as NFKD does on ASCII). -/
def sanitize_name (nfkd : String → String) (name : String) : String :=
  subInvalid (replaceSpaces (pyStrip (pyLower (asciiIgnore (nfkd name)))))

/-- One page response of the Notion query endpoint. -/
structure PageData where
  results : List String
  has_more : Bool
  next_cursor : Option String
deriving DecidableEq, Repr

/-- Outcome of one HTTP attempt inside `iter_database`: a transport error
(`httpx.RequestError`), a malformed body (`json.JSONDecodeError`), an
application-level error response (`data["object"] == "error"`), or a
successful page. -/
inductive FetchOutcome where
  | requestError
  | jsonDecodeError
  | apiError (status : Nat) (message : String)
  | success (data : PageData)
deriving DecidableEq, Repr

/-- Error escaping the retry loop after the final attempt fails. -/
inductive FetchError where
  | requestError
  | jsonDecodeError
  | runtimeError (status : Nat) (message : String)
  | noAttempts
deriving DecidableEq, Repr

/-- An attempt outcome that takes an error path of the loop body. -/
def FetchOutcome.isFailure : FetchOutcome → Bool
  | .success _ => false
  | _ => true

/-- The error raised when the loop gives up on this outcome. -/
def FetchOutcome.toError : FetchOutcome → FetchError
  | .requestError => .requestError
  | .jsonDecodeError => .jsonDecodeError
  | .apiError st msg => .runtimeError st msg
  | .success _ => .noAttempts

/-- The `for retry in range(RETRIES)` loop of `iter_database` for one page
request.  `outcomes i` is what attempt number `i` would produce; `attempt`
counts attempts already made, `left` is the number of loop iterations
remaining, `delay` the current sleep length, and `slept` the time slept so
far.  Each iteration sleeps `delay` first; a failure on the last iteration
raises, any other failure multiplies `delay` by `BACKOFF` and continues.
`.error .noAttempts` marks the unreachable fall-through of the loop (it
requires `RETRIES = 0`). -/
def retryLoop (outcomes : Nat → FetchOutcome) (attempt : Nat) :
    Nat → Nat → Nat → Except FetchError (Nat × PageData)
  | 0, _, _ => .error .noAttempts
  | left + 1, delay, slept =>
    let slept := slept + delay
    match outcomes attempt with
    | .requestError =>
      if left = 0 then .error .requestError
      else retryLoop outcomes (attempt + 1) left (delay * BACKOFF) slept
    | .jsonDecodeError =>
      if left = 0 then .error .jsonDecodeError
      else retryLoop outcomes (attempt + 1) left (delay * BACKOFF) slept
    | .apiError st msg =>
      if left = 0 then .error (.runtimeError st msg)
      else retryLoop outcomes (attempt + 1) left (delay * BACKOFF) slept
    | .success data => .ok (slept, data)

/-- One page request of `iter_database`: run the retry loop with `RETRIES`
iterations and an initial delay of `DELAY`, returning the total time slept
and the page obtained. -/
def fetchPage (outcomes : Nat → FetchOutcome) : Except FetchError (Nat × PageData) :=
  retryLoop outcomes 0 RETRIES DELAY 0

/-- Cumulative sleep across `k` attempts when the first sleeps `delay` and
each subsequent attempt multiplies it by `BACKOFF`. -/
def totalDelay (delay : Nat) : Nat → Nat
  | 0 => 0
  | k + 1 => delay + totalDelay (delay * BACKOFF) k

/-- A fetched Notion page as seen by `sync_database`: its `id` and the
already-normalized value of each named property (`get_value` applied to
`page["properties"][name]`); every page carries every property of the
database, as Notion guarantees. -/
structure Page where
  id : String
  props : String → Value

/-- The per-property loop body of `sync_database`: for each `(name,
property)` in order, gather the column values, `convert` them, skip the
field when the target type is the `none` sentinel, and otherwise prepend the
sanitized name, the field type, and the column. -/
def assembleFields (nfkd : String → String) (pages : List Page) :
    List (String × Property) →
    Except PyErr (List String × List String × List (List Value))
  | [] => .ok ([], [], [])
  | (name, property) :: rest =>
    match convert property (pages.map fun page => page.props name) with
    | .error e => .error e
    | .ok (fieldType, column) =>
      match assembleFields nfkd pages rest with
      | .error e => .error e
      | .ok (names, types, cols) =>
        match fieldType with
        | none => .ok (names, types, cols)
        | some t => .ok (sanitize_name nfkd name :: names, t :: types, column :: cols)

/-- Helper for `zip(*columns)`: truncating row-wise zip of a list of columns, as
`rows = list(zip(*columns))` computes it. -/
def pyZipAux : List Value → List (List Value) → List (List Value)
  | [], _ => []
  | a :: as, cs =>
    if cs.all (fun c => !c.isEmpty) then
      (a :: cs.filterMap List.head?) :: pyZipAux as (cs.map List.tail)
    else
      []

/-- Full `zip(*columns)` for the column list. -/
def pyZip : List (List Value) → List (List Value)
  | [] => []
  | c :: cs => pyZipAux c cs

/-- The schema/row assembly of `sync_database`: properties are sorted by
name (`sorted(database["properties"].items())`), the implicit `id` column of
type `uuid` comes first, skipped fields are dropped, and the rows are the
row-wise zip of the surviving columns. -/
def syncFields (nfkd : String → String) (props : List (String × Property))
    (pages : List Page) :
    Except PyErr (List String × List String × List (List Value) × List (List Value)) :=
  match assembleFields nfkd pages (props.mergeSort fun a b => a.1 ≤ b.1) with
  | .error e => .error e
  | .ok (names, types, cols) =>
    let fieldNames := "id" :: names
    let fieldTypes := "uuid" :: types
    let columns := (pages.map fun page => Value.vstr page.id) :: cols
    .ok (fieldNames, fieldTypes, columns, pyZip columns)

/-! ### Helper lemmas about the embedded operations -/

theorem mapME_asPair (pairs : List (Option String × Option String)) :
    mapME asPair (pairs.map fun p => Value.vpair p.1 p.2) = .ok pairs := by
  induction pairs with
  | nil => rfl
  | cons p ps ih => simp [mapME, asPair, ih]

theorem mapME_asTagged (tvs : List (String × Value)) :
    mapME asTagged (tvs.map fun a => Value.vtagged a.1 a.2) = .ok tvs := by
  induction tvs with
  | nil => rfl
  | cons a as ih => simp [mapME, asTagged, ih]

theorem mapME_asList (lists : List (List String)) :
    mapME asList (lists.map Value.vlist) = .ok lists := by
  induction lists with
  | nil => rfl
  | cons l ls ih => simp [mapME, asList, ih]

theorem mapME_ok_length {α β : Type} (f : α → Except PyErr β) :
    ∀ (l : List α) (l' : List β), mapME f l = .ok l' → l'.length = l.length := by
  intro l
  induction l with
  | nil =>
    intro l' h
    simp only [mapME] at h
    cases h
    rfl
  | cons a as ih =>
    intro l' h
    simp only [mapME] at h
    cases hfa : f a with
    | error e => rw [hfa] at h; cases h
    | ok b =>
      rw [hfa] at h
      cases hrest : mapME f as with
      | error e => rw [hrest] at h; cases h
      | ok bs =>
        rw [hrest] at h
        cases h
        simp [ih bs hrest]

theorem convert_number_def (values : List Value) :
    convert ⟨"number"⟩ values = .ok (convertNumber values) := rfl

theorem convert_date_def (values : List Value) :
    convert ⟨"date"⟩ values = convertDate values := rfl

theorem convert_people_def (values : List Value) :
    convert ⟨"people"⟩ values = collapseLists "uuid" "uuid[]" values := rfl

theorem convert_files_def (values : List Value) :
    convert ⟨"files"⟩ values = collapseLists "text" "text[]" values := rfl

theorem convert_relation_def (values : List Value) :
    convert ⟨"relation"⟩ values = collapseLists "uuid" "uuid[]" values := rfl

theorem convert_formula_def (values : List Value) :
    convert ⟨"formula"⟩ values =
      match mapME asTagged values with
      | .error e => .error e
      | .ok tagged =>
        match theUnique (tagged.map Prod.fst) with
        | .error e => .error e
        | .ok subtype => formulaDispatch subtype (tagged.map Prod.snd) := rfl

theorem convert_rollup_def (values : List Value) :
    convert ⟨"rollup"⟩ values =
      match mapME asTagged values with
      | .error e => .error e
      | .ok tagged =>
        match theUnique (tagged.map Prod.fst) with
        | .error e => .error e
        | .ok subtype => rollupDispatch subtype (tagged.map Prod.snd) := rfl

theorem numberCond_iff (values : List Value) :
    (values.all fun v => decide (v = .vnone) || isinstanceInt v) = true ↔
      ∀ v ∈ values, v ≠ .vnone → isinstanceInt v = true := by
  simp [List.all_eq_true, or_iff_not_imp_left]

theorem theUnique_ok (t : String) (tags : List String) (hne : tags ≠ [])
    (h : ∀ u ∈ tags, u = t) : theUnique tags = .ok t := by
  cases tags with
  | nil => exact absurd rfl hne
  | cons t0 rest =>
    have h0 : t0 = t := h t0 (by simp)
    subst h0
    have hc : (rest.all fun u => u == t0) = true := by
      simp only [List.all_eq_true, beq_iff_eq]
      intro u hu
      exact h u (by simp [hu])
    simp [theUnique, hc]

theorem theUnique_error_of_mixed (tags : List String)
    (h : ∃ a ∈ tags, ∃ b ∈ tags, a ≠ b) : theUnique tags = .error .valueError := by
  cases tags with
  | nil => simp at h
  | cons t0 rest =>
    cases hb : (rest.all fun u => u == t0) with
    | false => simp [theUnique, hb]
    | true =>
      exfalso
      simp only [List.all_eq_true, beq_iff_eq] at hb
      obtain ⟨a, ha, b, hbm, hab⟩ := h
      have ea : a = t0 := by
        rcases List.mem_cons.mp ha with h' | h'
        · exact h'
        · exact hb a h'
      have eb : b = t0 := by
        rcases List.mem_cons.mp hbm with h' | h'
        · exact h'
        · exact hb b h'
      exact hab (ea.trans eb.symm)

/-! ### Claim theorems -/

/-- C1: for a numeric-kind field, `convert` returns the `integer` target
type iff every non-absent value across all rows is a Python `int`, and
otherwise returns `double precision`; on the column `[1, 2.5, None]` it
returns `double precision` with values numerically equal to
`[1.0, 2.5, None]` (the values are passed through verbatim, and Python's
`==` identifies `1` with `1.0`). -/
theorem numeric_type_iff_all_int :
    (∀ values : List Value,
      (convert ⟨"number"⟩ values = .ok (some "integer", values) ↔
        ∀ v ∈ values, v ≠ .vnone → isinstanceInt v = true) ∧
      ((∃ v ∈ values, v ≠ .vnone ∧ isinstanceInt v = false) →
        convert ⟨"number"⟩ values = .ok (some "double precision", values))) ∧
    (convert ⟨"number"⟩ [.vnum (.int 1), .vnum (.float (5 / 2)), .vnone] =
        .ok (some "double precision",
          [.vnum (.int 1), .vnum (.float (5 / 2)), .vnone]) ∧
      [Value.vnum (.int 1), .vnum (.float (5 / 2)), .vnone].map Value.toRatOpt =
        [some 1, some (5 / 2), none]) := by
  constructor
  · intro values
    constructor
    · rw [convert_number_def]
      unfold convertNumber
      by_cases h : (values.all fun v => decide (v = .vnone) || isinstanceInt v) = true
      · rw [if_pos h]
        rw [numberCond_iff] at h
        simpa using h
      · rw [if_neg h]
        constructor
        · intro he
          simp at he
        · intro hall
          exact absurd ((numberCond_iff values).mpr hall) h
    · rintro ⟨v, hv, hne, hint⟩
      rw [convert_number_def]
      unfold convertNumber
      rw [if_neg]
      intro hall
      have := (numberCond_iff values).mp hall v hv hne
      rw [hint] at this
      cases this
  · constructor
    · rw [convert_number_def]
      unfold convertNumber
      have hc : ([Value.vnum (.int 1), .vnum (.float (5 / 2)), .vnone].all
          fun v => decide (v = .vnone) || isinstanceInt v) = false := by
        simp [isinstanceInt]
      rw [hc]
      simp
    · simp [Value.toRatOpt]

/-- Witness for C1 at a concrete all-integer column. -/
theorem numeric_type_iff_all_int_witness :
    convert ⟨"number"⟩ [.vnum (.int 2), .vnone] =
      .ok (some "integer", [.vnum (.int 2), .vnone]) :=
  ((numeric_type_iff_all_int.1 [.vnum (.int 2), .vnone]).1).mpr (by decide)

/-- C3: for a formula or rollup field, rows reporting two different
subtypes make `convert` raise `ValueError`; a single shared subtype makes
the conversion proceed on the unwrapped payloads. -/
theorem computed_subtype_invariant (tvs : List (String × Value)) :
    ((∃ a ∈ tvs, ∃ b ∈ tvs, a.1 ≠ b.1) →
      convert ⟨"formula"⟩ (tvs.map fun a => Value.vtagged a.1 a.2) =
        .error .valueError ∧
      convert ⟨"rollup"⟩ (tvs.map fun a => Value.vtagged a.1 a.2) =
        .error .valueError) ∧
    (∀ t, tvs ≠ [] → (∀ a ∈ tvs, a.1 = t) →
      convert ⟨"formula"⟩ (tvs.map fun a => Value.vtagged a.1 a.2) =
        formulaDispatch t (tvs.map Prod.snd) ∧
      convert ⟨"rollup"⟩ (tvs.map fun a => Value.vtagged a.1 a.2) =
        rollupDispatch t (tvs.map Prod.snd)) := by
  constructor
  · intro h
    have hmix : ∃ a ∈ tvs.map Prod.fst, ∃ b ∈ tvs.map Prod.fst, a ≠ b := by
      obtain ⟨a, ha, b, hb, hab⟩ := h
      exact ⟨a.1, List.mem_map_of_mem Prod.fst ha,
        b.1, List.mem_map_of_mem Prod.fst hb, hab⟩
    have herr := theUnique_error_of_mixed (tvs.map Prod.fst) hmix
    constructor
    · simp only [convert_formula_def, mapME_asTagged, herr]
    · simp only [convert_rollup_def, mapME_asTagged, herr]
  · intro t hne hall
    have huni : theUnique (tvs.map Prod.fst) = .ok t := by
      apply theUnique_ok t _ (by simpa using hne)
      intro u hu
      obtain ⟨a, ha, rfl⟩ := List.mem_map.mp hu
      exact hall a ha
    constructor
    · simp only [convert_formula_def, mapME_asTagged, huni]
    · simp only [convert_rollup_def, mapME_asTagged, huni]

/-- Witness for C3: mixed subtypes raise; a uniform subtype proceeds. -/
theorem computed_subtype_invariant_witness :
    convert ⟨"formula"⟩
        [Value.vtagged "number" (.vnum (.int 1)), Value.vtagged "string" (.vstr "x")] =
      .error .valueError :=
  ((computed_subtype_invariant
      [("number", .vnum (.int 1)), ("string", .vstr "x")]).1 (by decide)).1

/-- C4: for people/files/relation list fields, when every row's list has at
most one element `convert` collapses to the scalar type, substituting `None`
for empty lists and the sole element otherwise; a single row with two or
more elements forces the array type with every list kept as a list. -/
theorem reference_list_cardinality_collapse (lists : List (List String)) :
    ((∀ l ∈ lists, l.length ≤ 1) →
      convert ⟨"people"⟩ (lists.map Value.vlist) =
        .ok (some "uuid", lists.map fun l =>
          match l.head? with
          | some x => Value.vstr x
          | none => Value.vnone) ∧
      convert ⟨"files"⟩ (lists.map Value.vlist) =
        .ok (some "text", lists.map fun l =>
          match l.head? with
          | some x => Value.vstr x
          | none => Value.vnone) ∧
      convert ⟨"relation"⟩ (lists.map Value.vlist) =
        .ok (some "uuid", lists.map fun l =>
          match l.head? with
          | some x => Value.vstr x
          | none => Value.vnone)) ∧
    ((∃ l ∈ lists, 2 ≤ l.length) →
      convert ⟨"people"⟩ (lists.map Value.vlist) =
        .ok (some "uuid[]", lists.map Value.vlist) ∧
      convert ⟨"files"⟩ (lists.map Value.vlist) =
        .ok (some "text[]", lists.map Value.vlist) ∧
      convert ⟨"relation"⟩ (lists.map Value.vlist) =
        .ok (some "uuid[]", lists.map Value.vlist)) := by
  constructor
  · intro h
    have hcond : (lists.all fun l => decide (l.length ≤ 1)) = true := by
      simp only [List.all_eq_true, decide_eq_true_eq]
      exact h
    refine ⟨?_, ?_, ?_⟩ <;>
      simp [convert_people_def, convert_files_def, convert_relation_def,
        collapseLists, mapME_asList, hcond]
  · intro h
    have hcond : (lists.all fun l => decide (l.length ≤ 1)) = false := by
      obtain ⟨l, hl, h2⟩ := h
      simp only [List.all_eq_false, decide_eq_true_eq]
      exact ⟨l, hl, by omega⟩
    refine ⟨?_, ?_, ?_⟩ <;>
      simp [convert_people_def, convert_files_def, convert_relation_def,
        collapseLists, mapME_asList, hcond]

/-- Witness for C4 at concrete columns. -/
theorem reference_list_cardinality_collapse_witness :
    convert ⟨"relation"⟩ [Value.vlist ["u1"], Value.vlist []] =
      .ok (some "uuid", [Value.vstr "u1", Value.vnone]) :=
  (((reference_list_cardinality_collapse [["u1"], []]).1 (by decide)).2).2

/-- C2: for a date/time field, `convert` chooses a range target type iff
some row has a non-absent end value, and a scalar type otherwise; within
each branch the date-only type is chosen iff every non-absent boundary value
fullmatches the strict `YYYY-MM-DD` pattern, else the
timestamp-with-zone variant; in the scalar branch the end components are
discarded from the coerced values. -/
theorem date_scalar_vs_range (pairs : List (Option String × Option String)) :
    ((pairs.any fun p => p.2.isSome) = true ↔ ∃ p ∈ pairs, p.2 ≠ none) ∧
    (∀ l : List (Option String),
      allDates l = true ↔ ∀ o ∈ l, ∀ s, o = some s → isDateStr s = true) ∧
    convert ⟨"date"⟩ (pairs.map fun p => Value.vpair p.1 p.2) =
      .ok
        (if pairs.any (fun p => p.2.isSome) then
          (some
            (if allDates (pairs.map fun p => p.1) && allDates (pairs.map fun p => p.2)
              then "daterange" else "tstzrange"),
            pairs.map fun p => Value.vpair p.1 p.2)
        else
          (some
            (if allDates (pairs.map fun p => p.1) then "date"
              else "timestamp with time zone"),
            pairs.map fun p => optToValue p.1)) := by
  refine ⟨?_, ?_, ?_⟩
  · simp [List.any_eq_true, Option.isSome_iff_ne_none]
  · intro l
    simp only [allDates, List.all_eq_true]
    constructor
    · intro h o ho s hs
      have := h o ho
      rw [hs] at this
      exact this
    · intro h o ho
      cases o with
      | none => rfl
      | some s => exact h (some s) ho s rfl
  · simp only [convert_date_def, convertDate, mapME_asPair]
    by_cases h1 : (pairs.any fun p => p.2.isSome) = true
    · simp only [h1, if_true]
      by_cases h2 :
          (allDates (pairs.map fun p => p.1) && allDates (pairs.map fun p => p.2)) = true
      · simp [h2]
      · rw [Bool.not_eq_true] at h2
        simp [h2]
    · rw [Bool.not_eq_true] at h1
      simp only [h1, Bool.false_eq_true, if_false]
      by_cases h2 : (allDates (pairs.map fun p => p.1)) = true
      · simp [h2, List.map_map, Function.comp]
      · rw [Bool.not_eq_true] at h2
        simp [h2, List.map_map, Function.comp]

/-- Witness for C2 at a concrete scalar date column. -/
theorem date_scalar_vs_range_witness :
    convert ⟨"date"⟩ [Value.vpair (some "2024-01-01") none] =
      .ok (some "date", [Value.vstr "2024-01-01"]) := by
  have h := (date_scalar_vs_range [(some "2024-01-01", none)]).2.2
  simpa using h

/-- C10: applying `convert` to a formula or rollup field over zero records
raises `ValueError` from unpacking the empty set of observed subtypes, even
though no mixed-subtype violation is present. -/
theorem convert_computed_empty_raises :
    convert ⟨"formula"⟩ ([] : List Value) = .error .valueError ∧
    convert ⟨"rollup"⟩ ([] : List Value) = .error .valueError :=
  ⟨rfl, rfl⟩

/-! ### Sanitizer lemmas -/

theorem isNameChar_lt_128 (c : Char) (h : isNameChar c = true) : c.toNat < 128 := by
  simp only [isNameChar, Bool.or_eq_true, Bool.and_eq_true, decide_eq_true_eq] at h
  rcases h with (⟨h1, h2⟩ | ⟨h1, h2⟩) | h
  · omega
  · omega
  · subst h; decide

theorem toLower_nameChar (c : Char) (h : isNameChar c = true) : c.toLower = c := by
  simp only [isNameChar, Bool.or_eq_true, Bool.and_eq_true, decide_eq_true_eq] at h
  rcases h with (⟨h1, h2⟩ | ⟨h1, h2⟩) | h
  · unfold Char.toLower
    have hx : ¬(c.toNat ≥ 65 ∧ c.toNat ≤ 90) := by omega
    simp [hx]
  · unfold Char.toLower
    have hx : ¬(c.toNat ≥ 65 ∧ c.toNat ≤ 90) := by omega
    simp [hx]
  · subst h; decide

theorem nameChar_not_space (c : Char) (h : isNameChar c = true) : isPySpace c = false := by
  cases hc : isPySpace c with
  | false => rfl
  | true =>
    exfalso
    simp only [isPySpace, Bool.or_eq_true, decide_eq_true_eq] at hc
    rcases hc with ((((h1 | h1) | h1) | h1) | h1) | h1 <;> subst h1 <;>
      exact absurd h (by decide)

theorem nameChar_ne_space (c : Char) (h : isNameChar c = true) : c ≠ ' ' := by
  rintro rfl
  exact absurd h (by decide)

theorem dropWhile_of_nameChar (l : List Char) (hl : ∀ c ∈ l, isNameChar c = true) :
    l.dropWhile isPySpace = l := by
  cases l with
  | nil => rfl
  | cons a as =>
    rw [List.dropWhile_cons, nameChar_not_space a (hl a (by simp))]
    simp

theorem asciiIgnore_fix (s : String) (hs : ∀ c ∈ s.data, isNameChar c = true) :
    asciiIgnore s = s := by
  simp only [asciiIgnore]
  rw [List.filter_eq_self.mpr fun c hc => by
    simpa using isNameChar_lt_128 c (hs c hc)]

theorem pyLower_fix (s : String) (hs : ∀ c ∈ s.data, isNameChar c = true) :
    pyLower s = s := by
  simp only [pyLower]
  rw [List.map_congr_left fun c hc => toLower_nameChar c (hs c hc), List.map_id']

theorem pyStrip_fix (s : String) (hs : ∀ c ∈ s.data, isNameChar c = true) :
    pyStrip s = s := by
  simp only [pyStrip]
  rw [dropWhile_of_nameChar s.data hs,
    dropWhile_of_nameChar s.data.reverse fun c hc => hs c (List.mem_reverse.mp hc),
    List.reverse_reverse]

theorem replaceSpaces_fix (s : String) (hs : ∀ c ∈ s.data, isNameChar c = true) :
    replaceSpaces s = s := by
  simp only [replaceSpaces]
  rw [List.map_congr_left fun c hc => if_neg (nameChar_ne_space c (hs c hc)), List.map_id']

theorem subInvalid_fix (s : String) (hs : ∀ c ∈ s.data, isNameChar c = true) :
    subInvalid s = s := by
  simp only [subInvalid]
  rw [List.filter_eq_self.mpr hs]

theorem sanitize_name_all_nameChar (nfkd : String → String) (x : String) :
    ∀ c ∈ (sanitize_name nfkd x).data, isNameChar c = true := by
  intro c hc
  simp only [sanitize_name, subInvalid] at hc
  exact (List.mem_filter.mp hc).2

/-- C7: `sanitize_name` is idempotent and total: re-sanitizing its output is
a no-op and the output consists only of characters in `[a-z0-9_]`.  The
NFKD step is assumed to fix already-sanitized strings (it is the identity on
ASCII). -/
theorem sanitize_idempotent_total (nfkd : String → String)
    (hn : ∀ s : String, (∀ c ∈ s.data, isNameChar c = true) → nfkd s = s)
    (x : String) :
    sanitize_name nfkd (sanitize_name nfkd x) = sanitize_name nfkd x ∧
    ∀ c ∈ (sanitize_name nfkd x).data, isNameChar c = true := by
  have hall := sanitize_name_all_nameChar nfkd x
  refine ⟨?_, hall⟩
  show subInvalid (replaceSpaces (pyStrip (pyLower
    (asciiIgnore (nfkd (sanitize_name nfkd x)))))) = sanitize_name nfkd x
  rw [hn _ hall, asciiIgnore_fix _ hall, pyLower_fix _ hall, pyStrip_fix _ hall,
    replaceSpaces_fix _ hall, subInvalid_fix _ hall]

/-- Witness for C7 with the identity NFKD (NFKD is the identity on ASCII)
at a concrete label. -/
theorem sanitize_idempotent_total_witness :
    sanitize_name id (sanitize_name id " Hello, World! 42 ") =
      sanitize_name id " Hello, World! 42 " ∧
    ∀ c ∈ (sanitize_name id " Hello, World! 42 ").data, isNameChar c = true :=
  sanitize_idempotent_total id (fun _ _ => rfl) " Hello, World! 42 "

/-! ### Midnight-timestamp truncation lemmas -/

theorem maybe_date_midnight (d : String) :
    maybe_date (some (d ++ "T00:00:00.000+00:00")) = some d := by
  have hdata : (d ++ "T00:00:00.000+00:00").data = d.data ++ MIDNIGHT_UTC :=
    String.data_append d "T00:00:00.000+00:00"
  have hsuf : MIDNIGHT_UTC.isSuffixOf (d ++ "T00:00:00.000+00:00").data = true := by
    rw [hdata, List.isSuffixOf_iff_suffix]
    exact List.suffix_append d.data MIDNIGHT_UTC
  simp only [maybe_date, hsuf, if_true]
  rw [hdata]
  have hlen : (d.data ++ MIDNIGHT_UTC).length - 19 = d.data.length := by
    rw [List.length_append]
    rfl
  rw [hlen, List.take_left]

theorem maybe_date_other (v : String) (h : MIDNIGHT_UTC.isSuffixOf v.data = false) :
    maybe_date (some v) = some v := by
  simp [maybe_date, h]

/-- C8: a formula/rollup date payload whose timestamp is exactly midnight
UTC (a value `s ++ "T00:00:00.000+00:00"`) is truncated by the normalizer
to the bare prefix — a bare `YYYY-MM-DD` calendar-date string whenever the
prefix is one — while `None` stays `None` and a value not carrying the
midnight-UTC suffix is left unchanged; `get_value`'s formula-date and
rollup-date branches route both boundaries through this truncation. -/
theorem midnight_truncation (d e v : String) :
    maybe_date none = none ∧
    maybe_date (some (d ++ "T00:00:00.000+00:00")) = some d ∧
    (isDateStr d = true →
      isDateStr ((maybe_date (some (d ++ "T00:00:00.000+00:00"))).getD "") = true) ∧
    (MIDNIGHT_UTC.isSuffixOf v.data = false → maybe_date (some v) = some v) ∧
    getValueFormulaDate (some ⟨d ++ "T00:00:00.000+00:00", none, none⟩) =
      .ok (.vtagged "date" (.vpair (some d) none)) ∧
    getValueRollupDate
        (some ⟨d ++ "T00:00:00.000+00:00", some (e ++ "T00:00:00.000+00:00"), none⟩) =
      .ok (.vtagged "date" (.vpair (some d) (some e))) := by
  refine ⟨rfl, maybe_date_midnight d, ?_, maybe_date_other v, ?_, ?_⟩
  · intro hd
    rw [maybe_date_midnight d]
    exact hd
  · simp [getValueFormulaDate, maybe_date_midnight]
  · simp [getValueRollupDate, maybe_date_midnight]

/-- Witness for C8 at a concrete midnight timestamp. -/
theorem midnight_truncation_witness :
    maybe_date (some "2024-01-01T00:00:00.000+00:00") = some "2024-01-01" ∧
    isDateStr ((maybe_date (some ("2024-01-01" ++ "T00:00:00.000+00:00"))).getD "") = true := by
  have h := midnight_truncation "2024-01-01" "2024-01-02" "x"
  exact ⟨h.2.1, h.2.2.1 (by decide)⟩

/-! ### Retry-loop lemmas -/

theorem retryLoop_success (outcomes : Nat → FetchOutcome) (page : PageData) :
    ∀ (k a left delay slept : Nat), k < left →
    (∀ i, i < k → (outcomes (a + i)).isFailure = true) →
    outcomes (a + k) = .success page →
    retryLoop outcomes a left delay slept = .ok (slept + totalDelay delay (k + 1), page) := by
  intro k
  induction k with
  | zero =>
    intro a left delay slept hk _ hsucc
    cases left with
    | zero => omega
    | succ l =>
      rw [Nat.add_zero] at hsucc
      simp only [retryLoop, hsucc, totalDelay, Nat.add_zero]
  | succ k ih =>
    intro a left delay slept hk hfail hsucc
    cases left with
    | zero => omega
    | succ l =>
      have hf0 : (outcomes a).isFailure = true := by
        have := hfail 0 (by omega)
        simpa using this
      have hlne : ¬(l = 0) := by omega
      have hrec := ih (a + 1) l (delay * BACKOFF) (slept + delay) (by omega)
        (fun i hi => by
          have := hfail (i + 1) (by omega)
          rwa [show a + (i + 1) = a + 1 + i by omega] at this)
        (by rwa [show a + 1 + k = a + (k + 1) by omega])
      cases ho : outcomes a with
      | success d => rw [ho] at hf0; simp [FetchOutcome.isFailure] at hf0
      | requestError =>
        simp only [retryLoop, ho, if_neg hlne, hrec, totalDelay]
        congr 2
        omega
      | jsonDecodeError =>
        simp only [retryLoop, ho, if_neg hlne, hrec, totalDelay]
        congr 2
        omega
      | apiError st msg =>
        simp only [retryLoop, ho, if_neg hlne, hrec, totalDelay]
        congr 2
        omega

theorem retryLoop_allFail (outcomes : Nat → FetchOutcome) :
    ∀ (left a delay slept : Nat), 0 < left →
    (∀ i, i < left → (outcomes (a + i)).isFailure = true) →
    retryLoop outcomes a left delay slept =
      .error (outcomes (a + (left - 1))).toError := by
  intro left
  induction left with
  | zero => intro a delay slept h; omega
  | succ l ih =>
    intro a delay slept _ hfail
    have hf0 : (outcomes a).isFailure = true := by
      have := hfail 0 (by omega)
      simpa using this
    cases l with
    | zero =>
      cases ho : outcomes a with
      | success d => rw [ho] at hf0; simp [FetchOutcome.isFailure] at hf0
      | requestError => simp [retryLoop, ho, FetchOutcome.toError]
      | jsonDecodeError => simp [retryLoop, ho, FetchOutcome.toError]
      | apiError st msg => simp [retryLoop, ho, FetchOutcome.toError]
    | succ l' =>
      have hrec := ih (a + 1) (delay * BACKOFF) (slept + delay) (by omega)
        (fun i hi => by
          have := hfail (i + 1) (by omega)
          rwa [show a + (i + 1) = a + 1 + i by omega] at this)
      have hnz : ¬(l' + 1 = 0) := by omega
      have hshift : a + 1 + (l' + 1 - 1) = a + (l' + 1 + 1 - 1) := by omega
      cases ho : outcomes a with
      | success d => rw [ho] at hf0; simp [FetchOutcome.isFailure] at hf0
      | requestError =>
        rw [retryLoop]
        simp only [ho, if_neg hnz]
        rw [hrec, hshift]
      | jsonDecodeError =>
        rw [retryLoop]
        simp only [ho, if_neg hnz]
        rw [hrec, hshift]
      | apiError st msg =>
        rw [retryLoop]
        simp only [ho, if_neg hnz]
        rw [hrec, hshift]

/-- C5: for every page request, transport failures, malformed bodies and
application-level error responses are retried up to `RETRIES` attempts with
a delay that starts at `DELAY` and is multiplied by `BACKOFF` after every
failed attempt (so a fetch succeeding on attempt `k+1` has slept the full
geometric sum); a fetch failing on attempts 1 and 2 and succeeding on
attempt 3 sleeps `totalDelay DELAY 3 = DELAY + DELAY*BACKOFF +
DELAY*BACKOFF²`, which is at least `DELAY + DELAY*BACKOFF`, and returns
exactly the successful page; exhausting all attempts raises the last
attempt's error. -/
theorem fetch_retry_backoff (outcomes : Nat → FetchOutcome) :
    (∀ k page, k < RETRIES →
      (∀ i, i < k → (outcomes i).isFailure = true) →
      outcomes k = .success page →
      fetchPage outcomes = .ok (totalDelay DELAY (k + 1), page)) ∧
    ((∀ i, i < RETRIES → (outcomes i).isFailure = true) →
      fetchPage outcomes = .error (outcomes (RETRIES - 1)).toError) ∧
    (∀ page, (outcomes 0).isFailure = true → (outcomes 1).isFailure = true →
      outcomes 2 = .success page →
      fetchPage outcomes = .ok (totalDelay DELAY 3, page) ∧
      DELAY + DELAY * BACKOFF ≤ totalDelay DELAY 3) := by
  refine ⟨?_, ?_, ?_⟩
  · intro k page hk hfail hsucc
    have h := retryLoop_success outcomes page k 0 RETRIES DELAY 0 hk
      (by simpa using hfail) (by simpa using hsucc)
    simpa [fetchPage] using h
  · intro hfail
    have h := retryLoop_allFail outcomes RETRIES 0 DELAY 0 (by decide)
      (by simpa using hfail)
    simpa [fetchPage] using h
  · intro page h0 h1 h2
    constructor
    · have h := retryLoop_success outcomes page 2 0 RETRIES DELAY 0 (by decide)
        (fun i hi => by
          interval_cases i
          · simpa using h0
          · simpa using h1)
        (by simpa using h2)
      simpa [fetchPage] using h
    · decide

/-- Witness for C5: a fetch failing twice with a transport error and
succeeding on the third attempt. -/
theorem fetch_retry_backoff_witness :
    fetchPage (fun i => if i < 2 then .requestError else
      .success ⟨["r1", "r2"], false, none⟩) =
      .ok (totalDelay DELAY 3, ⟨["r1", "r2"], false, none⟩) ∧
    DELAY + DELAY * BACKOFF ≤ totalDelay DELAY 3 :=
  (fetch_retry_backoff _).2.2 ⟨["r1", "r2"], false, none⟩
    (by decide) (by decide) (by decide)

/-! ### Length preservation of `convert` -/

theorem convertDate_length (values : List Value) (t : Option String) (col : List Value)
    (h : convertDate values = .ok (t, col)) : col.length = values.length := by
  unfold convertDate at h
  cases hm : mapME asPair values with
  | error e => rw [hm] at h; cases h
  | ok pairs =>
    simp only [hm] at h
    have hp := mapME_ok_length asPair values pairs hm
    split at h
    · split at h
      · cases h; rfl
      · cases h; rfl
    · split at h
      · cases h; simp [hp]
      · cases h; simp [hp]

theorem collapseLists_length (s a : String) (values : List Value) (t : Option String)
    (col : List Value) (h : collapseLists s a values = .ok (t, col)) :
    col.length = values.length := by
  unfold collapseLists at h
  cases hm : mapME asList values with
  | error e => rw [hm] at h; cases h
  | ok lists =>
    simp only [hm] at h
    have hl := mapME_ok_length asList values lists hm
    split at h
    · cases h; simp [hl]
    · cases h; rfl

theorem formulaDispatch_length (s : String) (values : List Value) (t : Option String)
    (col : List Value) (h : formulaDispatch s values = .ok (t, col)) :
    col.length = values.length := by
  unfold formulaDispatch at h
  split_ifs at h
  · cases h; rfl
  · simp only [convertNumber] at h
    split at h
    · cases h; rfl
    · cases h; rfl
  · exact convertDate_length values t col h
  · cases h; rfl

theorem rollupDispatch_length (s : String) (values : List Value) (t : Option String)
    (col : List Value) (h : rollupDispatch s values = .ok (t, col)) :
    col.length = values.length := by
  unfold rollupDispatch at h
  split_ifs at h
  · cases h; rfl
  · simp only [convertNumber] at h
    split at h
    · cases h; rfl
    · cases h; rfl
  · exact convertDate_length values t col h

theorem convert_length (p : Property) (values : List Value) (t : Option String)
    (col : List Value) (h : convert p values = .ok (t, col)) :
    col.length = values.length := by
  unfold convert at h
  by_cases hty1 : p.type = "title"
  · rw [if_pos hty1] at h; cases h; rfl
  rw [if_neg hty1] at h
  by_cases hty2 : p.type = "rich_text"
  · rw [if_pos hty2] at h; cases h; rfl
  rw [if_neg hty2] at h
  by_cases hty3 : p.type = "number"
  · rw [if_pos hty3] at h
    simp only [convertNumber] at h
    split at h
    · cases h; rfl
    · cases h; rfl
  rw [if_neg hty3] at h
  by_cases hty4 : p.type = "select"
  · rw [if_pos hty4] at h; cases h; rfl
  rw [if_neg hty4] at h
  by_cases hty5 : p.type = "multi_select"
  · rw [if_pos hty5] at h; cases h; rfl
  rw [if_neg hty5] at h
  by_cases hty6 : p.type = "date"
  · rw [if_pos hty6] at h; exact convertDate_length values t col h
  rw [if_neg hty6] at h
  by_cases hty7 : p.type = "people"
  · rw [if_pos hty7] at h; exact collapseLists_length "uuid" "uuid[]" values t col h
  rw [if_neg hty7] at h
  by_cases hty8 : p.type = "files"
  · rw [if_pos hty8] at h; exact collapseLists_length "text" "text[]" values t col h
  rw [if_neg hty8] at h
  by_cases hty9 : p.type = "checkbox"
  · rw [if_pos hty9] at h; cases h; rfl
  rw [if_neg hty9] at h
  by_cases hty10 : p.type = "url"
  · rw [if_pos hty10] at h; cases h; rfl
  rw [if_neg hty10] at h
  by_cases hty11 : p.type = "email"
  · rw [if_pos hty11] at h; cases h; rfl
  rw [if_neg hty11] at h
  by_cases hty12 : p.type = "phone_number"
  · rw [if_pos hty12] at h; cases h; rfl
  rw [if_neg hty12] at h
  by_cases hty13 : p.type = "formula"
  · rw [if_pos hty13] at h
    cases hm : mapME asTagged values with
    | error e => rw [hm] at h; cases h
    | ok tagged =>
      simp only [hm] at h
      cases hu : theUnique (tagged.map Prod.fst) with
      | error e => rw [hu] at h; cases h
      | ok s =>
        simp only [hu] at h
        have hone := formulaDispatch_length s (tagged.map Prod.snd) t col h
        have htwo := mapME_ok_length asTagged values tagged hm
        simp only [List.length_map] at hone
        omega
  rw [if_neg hty13] at h
  by_cases hty14 : p.type = "relation"
  · rw [if_pos hty14] at h; exact collapseLists_length "uuid" "uuid[]" values t col h
  rw [if_neg hty14] at h
  by_cases hty15 : p.type = "rollup"
  · rw [if_pos hty15] at h
    cases hm : mapME asTagged values with
    | error e => rw [hm] at h; cases h
    | ok tagged =>
      simp only [hm] at h
      cases hu : theUnique (tagged.map Prod.fst) with
      | error e => rw [hu] at h; cases h
      | ok s =>
        simp only [hu] at h
        have hone := rollupDispatch_length s (tagged.map Prod.snd) t col h
        have htwo := mapME_ok_length asTagged values tagged hm
        simp only [List.length_map] at hone
        omega
  rw [if_neg hty15] at h
  by_cases hty16 : p.type = "created_time"
  · rw [if_pos hty16] at h; cases h; rfl
  rw [if_neg hty16] at h
  by_cases hty17 : p.type = "created_by"
  · rw [if_pos hty17] at h; cases h; rfl
  rw [if_neg hty17] at h
  by_cases hty18 : p.type = "last_edited_time"
  · rw [if_pos hty18] at h; cases h; rfl
  rw [if_neg hty18] at h
  by_cases hty19 : p.type = "last_edited_by"
  · rw [if_pos hty19] at h; cases h; rfl
  rw [if_neg hty19] at h
  cases h

/-! ### Assembler lemmas -/

theorem assembleFields_spec (nfkd : String → String) (pages : List Page) :
    ∀ (l : List (String × Property)) (ns ts : List String) (cs : List (List Value)),
    assembleFields nfkd pages l = .ok (ns, ts, cs) →
    ∃ surv : List (String × Property),
      surv.Sublist l ∧
      ns = surv.map (fun x => sanitize_name nfkd x.1) ∧
      ts.length = ns.length ∧
      cs.length = ns.length ∧
      ∀ c ∈ cs, c.length = pages.length := by
  intro l
  induction l with
  | nil =>
    intro ns ts cs h
    simp only [assembleFields] at h
    cases h
    exact ⟨[], List.Sublist.refl [], rfl, rfl, rfl, by simp⟩
  | cons hd rest ih =>
    intro ns ts cs h
    obtain ⟨name, property⟩ := hd
    simp only [assembleFields] at h
    cases hc : convert property (pages.map fun page => page.props name) with
    | error e => rw [hc] at h; cases h
    | ok pr =>
      obtain ⟨fieldType, column⟩ := pr
      simp only [hc] at h
      cases hr : assembleFields nfkd pages rest with
      | error e => rw [hr] at h; cases h
      | ok tri =>
        obtain ⟨ns', ts', cs'⟩ := tri
        simp only [hr] at h
        obtain ⟨surv, hsub, hns, hts, hcs, hlen⟩ := ih ns' ts' cs' hr
        cases fieldType with
        | none =>
          cases h
          exact ⟨surv, hsub.cons _, hns, hts, hcs, hlen⟩
        | some t =>
          cases h
          refine ⟨(name, property) :: surv, hsub.cons₂ _,
            by simp [hns], by simp [hts], by simp [hcs], ?_⟩
          intro c hcmem
          rcases List.mem_cons.mp hcmem with rfl | hcm
          · have := convert_length property _ _ _ hc
            simpa using this
          · exact hlen c hcm

theorem assembleFields_skip (nfkd : String → String) (pages : List Page)
    (nm : String) (p : Property) (w : List Value)
    (hc : convert p (pages.map fun pg => pg.props nm) = .ok (none, w)) :
    ∀ l₁ l₂ : List (String × Property),
    assembleFields nfkd pages (l₁ ++ (nm, p) :: l₂) =
      assembleFields nfkd pages (l₁ ++ l₂) := by
  intro l₁
  induction l₁ with
  | nil =>
    intro l₂
    simp only [List.nil_append]
    simp only [assembleFields, hc]
    cases hr : assembleFields nfkd pages l₂ with
    | error e => simp [hr]
    | ok tri =>
      obtain ⟨ns, ts, cs⟩ := tri
      simp [hr]
  | cons hd rest ih =>
    intro l₂
    obtain ⟨n0, p0⟩ := hd
    show assembleFields nfkd pages ((n0, p0) :: (rest ++ (nm, p) :: l₂)) =
      assembleFields nfkd pages ((n0, p0) :: (rest ++ l₂))
    simp only [assembleFields]
    cases hc0 : convert p0 (pages.map fun page => page.props n0) with
    | error e => rfl
    | ok pr =>
      obtain ⟨ft, col⟩ := pr
      simp only [hc0]
      rw [ih l₂]

theorem pyZipAux_length :
    ∀ (c : List Value) (cs : List (List Value)),
    (∀ x ∈ cs, x.length = c.length) → (pyZipAux c cs).length = c.length := by
  intro c
  induction c with
  | nil => intro cs _; rfl
  | cons a as ih =>
    intro cs h
    have hne : (cs.all fun x => !x.isEmpty) = true := by
      simp only [List.all_eq_true]
      intro x hx
      cases x with
      | nil => have := h [] hx; simp at this
      | cons y ys => simp
    have htail : ∀ x ∈ cs.map List.tail, x.length = as.length := by
      intro x hx
      obtain ⟨y, hy, rfl⟩ := List.mem_map.mp hx
      have := h y hy
      cases y with
      | nil => simp at this
      | cons z zs => simpa using this
    simp only [pyZipAux, hne, if_true, List.length_cons, ih _ htail]

theorem pyZip_length (c : List Value) (cs : List (List Value))
    (h : ∀ x ∈ cs, x.length = c.length) : (pyZip (c :: cs)).length = c.length :=
  pyZipAux_length c cs h

/-- C6: a rollup field whose every row carries the `array` subtype converts
to the no-target-type sentinel instead of raising; the assembler drops that
field — assembling with it gives exactly the same result as assembling
without it — and the surviving columns all keep one entry per input record,
as does the zipped row matrix (with the implicit id column in front). -/
theorem rollup_array_skipped (nfkd : String → String)
    (l₁ l₂ : List (String × Property)) (pages : List Page) (nm : String)
    (hp : pages ≠ [])
    (hv : ∀ pg ∈ pages, pg.props nm = .vtagged "array" (.vlist [])) :
    convert ⟨"rollup"⟩ (pages.map fun pg => pg.props nm) =
      .ok (none, pages.map fun _ => .vlist []) ∧
    assembleFields nfkd pages (l₁ ++ (nm, ⟨"rollup"⟩) :: l₂) =
      assembleFields nfkd pages (l₁ ++ l₂) ∧
    (∀ (ns ts : List String) (cols : List (List Value)),
      assembleFields nfkd pages (l₁ ++ l₂) = .ok (ns, ts, cols) →
      (∀ c ∈ cols, c.length = pages.length) ∧
      (pyZip ((pages.map fun page => Value.vstr page.id) :: cols)).length =
        pages.length) := by
  have hvals : (pages.map fun pg => pg.props nm) =
      pages.map fun _ => Value.vtagged "array" (.vlist []) :=
    List.map_congr_left fun pg hpg => hv pg hpg
  have h1 : convert ⟨"rollup"⟩ (pages.map fun pg => pg.props nm) =
      .ok (none, pages.map fun _ => .vlist []) := by
    rw [hvals, convert_rollup_def]
    have hmk : (pages.map fun _ => Value.vtagged "array" (Value.vlist [])) =
        ((pages.map fun _ => ("array", Value.vlist [])).map
          fun a => Value.vtagged a.1 a.2) := by
      simp [List.map_map, Function.comp]
    rw [hmk, mapME_asTagged]
    have hu : theUnique
        ((pages.map fun _ => ("array", Value.vlist [])).map Prod.fst) = .ok "array" := by
      apply theUnique_ok
      · simp [hp]
      · intro u hu'
        simp only [List.map_map, List.mem_map, Function.comp] at hu'
        obtain ⟨pg, _, he⟩ := hu'
        exact he.symm
    simp only [hu]
    simp [rollupDispatch, List.map_map, Function.comp]
  refine ⟨h1, assembleFields_skip nfkd pages nm ⟨"rollup"⟩ _ h1 l₁ l₂, ?_⟩
  intro ns ts cols h
  obtain ⟨surv, _, _, _, _, hlen⟩ := assembleFields_spec nfkd pages (l₁ ++ l₂) ns ts cols h
  refine ⟨hlen, ?_⟩
  have hz := pyZip_length (pages.map fun page => Value.vstr page.id) cols
    (fun x hx => by rw [hlen x hx, List.length_map])
  rw [hz, List.length_map]

/-- Witness for C6: a one-page database with a single array rollup. -/
theorem rollup_array_skipped_witness :
    convert ⟨"rollup"⟩
        (([⟨"p1", fun _ => Value.vtagged "array" (Value.vlist [])⟩] : List Page).map
          fun pg => pg.props "a") =
      .ok (none, [Value.vlist []]) ∧
    assembleFields id [⟨"p1", fun _ => Value.vtagged "array" (Value.vlist [])⟩]
        [("a", ⟨"rollup"⟩)] =
      assembleFields id [⟨"p1", fun _ => Value.vtagged "array" (Value.vlist [])⟩] [] := by
  have h := rollup_array_skipped id [] []
    [⟨"p1", fun _ => Value.vtagged "array" (Value.vlist [])⟩] "a"
    (by simp) (by intro pg hpg; simp only [List.mem_singleton] at hpg; subst hpg; rfl)
  exact ⟨h.1, h.2.1⟩

/-- C9: a successful assembly always places the `id` column first with the
`uuid` type, lists the surviving field names (sanitized) in lexicographic
order of their original labels, and yields columns and a zipped row matrix
whose row count equals the input record count. -/
theorem assembled_schema_shape (nfkd : String → String)
    (props : List (String × Property)) (pages : List Page)
    (ns ts : List String) (cols rows : List (List Value))
    (h : syncFields nfkd props pages = .ok (ns, ts, cols, rows)) :
    ∃ surv : List (String × Property),
      surv.Sublist (props.mergeSort fun a b => a.1 ≤ b.1) ∧
      ns = "id" :: surv.map (fun x => sanitize_name nfkd x.1) ∧
      ts.head? = some "uuid" ∧
      List.Sorted (fun a b : String => a ≤ b) (surv.map Prod.fst) ∧
      (∀ c ∈ cols, c.length = pages.length) ∧
      rows.length = pages.length := by
  unfold syncFields at h
  cases ha : assembleFields nfkd pages (props.mergeSort fun a b => a.1 ≤ b.1) with
  | error e => rw [ha] at h; cases h
  | ok tri =>
    obtain ⟨ns', ts', cs'⟩ := tri
    simp only [ha] at h
    cases h
    obtain ⟨surv, hsub, hns, hts, hcs, hlen⟩ :=
      assembleFields_spec nfkd pages _ ns' ts' cs' ha
    have hsorted : List.Pairwise
        (fun a b : String × Property => a.1 ≤ b.1)
        (props.mergeSort fun a b => a.1 ≤ b.1) := by
      have hs := @List.sorted_mergeSort (String × Property)
        (fun a b => decide (a.1 ≤ b.1))
        (fun a b c hab hbc => by
          simp only [decide_eq_true_eq] at *
          exact le_trans hab hbc)
        (fun a b => by
          simp only [Bool.or_eq_true, decide_eq_true_eq]
          exact le_total a.1 b.1)
        props
      exact hs.imp fun hab => by simpa using hab
    have hsurv := List.Pairwise.sublist hsub hsorted
    refine ⟨surv, hsub, by rw [hns], rfl,
      List.Pairwise.map Prod.fst (fun a b hab => hab) hsurv, ?_, ?_⟩
    · intro c hc
      rcases List.mem_cons.mp hc with rfl | hcm
      · exact List.length_map pages _
      · exact hlen c hcm
    · have hz := pyZip_length (pages.map fun page => Value.vstr page.id) cs'
        (fun x hx => by rw [hlen x hx, List.length_map])
      rw [hz, List.length_map]

/-- Witness for C9: a propertyless one-page database assembles to just the
id column. -/
theorem assembled_schema_shape_witness :
    ∃ surv : List (String × Property),
      surv.Sublist (([] : List (String × Property)).mergeSort fun a b => a.1 ≤ b.1) ∧
      (["id"] : List String) = "id" :: surv.map (fun x => sanitize_name id x.1) ∧
      (["uuid"] : List String).head? = some "uuid" ∧
      List.Sorted (fun a b : String => a ≤ b) (surv.map Prod.fst) ∧
      (∀ c ∈ [[Value.vstr "p1"]],
        c.length = ([⟨"p1", fun _ => Value.vnone⟩] : List Page).length) ∧
      ([[Value.vstr "p1"]] : List (List Value)).length =
        ([⟨"p1", fun _ => Value.vnone⟩] : List Page).length :=
  assembled_schema_shape id [] [⟨"p1", fun _ => Value.vnone⟩] ["id"] ["uuid"]
    [[Value.vstr "p1"]] [[Value.vstr "p1"]]
    (by simp [syncFields, assembleFields, pyZip, pyZipAux])

end Notion2pg
